import Mathlib

/-!
# PolicyPilot portfolio-construction core: a shallow embedding

The repository expresses its decision logic (identifier extraction, fund
classification, eligibility filtering, slot selection, gap analysis) as
natural-language instructions to a language model (`POLICY_PILOT_INSTRUCTION`
in `agent.py`); the only executable code is `setup_logging`.  Following the
specification, the decision engine is modelled here as explicit pure
functions, and `setup_logging` is embedded over an explicit filesystem state.
-/

namespace PolicyPilot

/-- Modelled from the spec: the user's risk appetite, one of the four fixed
profiles (§3 RiskProfile). -/
inductive RiskProfile where
  | conservative
  | balanced
  | growth
  | aggressive
deriving DecidableEq, Repr

/-- Modelled from the spec: the asset class assigned to a fund by the
FundClassifier (§3 AssetClass). -/
inductive AssetClass where
  | equity
  | defensive
  | specialty
deriving DecidableEq, Repr

/-- Modelled from the spec: the category of a portfolio slot; the target
mixes contain Equity-type and Defensive-type slots only (§3 TargetMix,
§4.5). -/
inductive SlotKind where
  | equity
  | defensive
deriving DecidableEq, Repr

/-- Modelled from the spec: observed per-fund metrics returned by the
FundResearcher (§3 FundMetrics).  Percentages are exact rationals. -/
structure FundMetrics where
  identifier : String
  oneYearReturn : ℚ
  volatility : ℚ
  feeRatio : ℚ
  riskScore : Option ℕ
deriving DecidableEq, Repr

/-- Modelled from the spec: a fund after classification, carrying its
asset class and an optional specialty tag such as "Crypto" (§4.3, §4.4). -/
structure ClassifiedFund where
  fund : FundMetrics
  assetClass : AssetClass
  tag : Option String
deriving DecidableEq, Repr

/-- Modelled from the spec: one entry of a TargetMix — a named slot with its
category and target percentage (§3 TargetMix). -/
structure MixEntry where
  slotName : String
  kind : SlotKind
  pct : ℚ
deriving DecidableEq, Repr

/-- Modelled from the spec: the four fixed profile-to-mix lookup tables
(Conservative 30/70, Balanced 60/40, Growth 80/20, Aggressive 100/0);
constants, not derived at runtime (§3 TargetMix). -/
def targetMix : RiskProfile → List MixEntry
  | .conservative => [⟨"Equity Core", .equity, 30⟩, ⟨"Defensive Anchor", .defensive, 70⟩]
  | .balanced => [⟨"Equity Core", .equity, 60⟩, ⟨"Defensive Anchor", .defensive, 40⟩]
  | .growth => [⟨"Equity Core", .equity, 80⟩, ⟨"Defensive Anchor", .defensive, 20⟩]
  | .aggressive => [⟨"Equity Core", .equity, 100⟩, ⟨"Defensive Anchor", .defensive, 0⟩]

/-- Total Equity percentage of a profile's target mix. -/
def equityPct (p : RiskProfile) : ℚ :=
  (((targetMix p).filter (fun e => e.kind = SlotKind.equity)).map MixEntry.pct).sum

/-- Total Defensive percentage of a profile's target mix. -/
def defensivePct (p : RiskProfile) : ℚ :=
  (((targetMix p).filter (fun e => e.kind = SlotKind.defensive)).map MixEntry.pct).sum

/-! ## IdentifierExtractor (§4.1)

Modelled from the spec: scanning the user's text for maximal tokens of
exactly 12 alphanumeric characters, normalising to uppercase, removing
duplicates while preserving first-appearance order, and signalling
`EmptyInputError` when no identifier is found.  Text is represented as its
character list. -/

/-- Modelled from the spec: errors crossing the core boundary (§7). -/
inductive CoreError where
  | emptyInput
  | noData
  | incompleteMix
deriving DecidableEq, Repr

/-- Accumulator-based splitting of a character stream into maximal runs of
alphanumeric characters; `acc` holds the current run reversed. -/
def runsAux : List Char → List Char → List (List Char)
  | [], acc => if acc = [] then [] else [acc.reverse]
  | c :: cs, acc =>
      if c.isAlphanum then runsAux cs (c :: acc)
      else if acc = [] then runsAux cs [] else acc.reverse :: runsAux cs []

/-- The maximal alphanumeric tokens of a text, in order of appearance. -/
def alnumTokens (text : List Char) : List (List Char) :=
  runsAux text []

/-- The maximal alphanumeric tokens of exactly 12 characters. -/
def tokens12 (text : List Char) : List (List Char) :=
  (alnumTokens text).filter (fun t => t.length = 12)

/-- Order-preserving deduplication; `seen` accumulates already-kept
elements. -/
def dedupAux : List (List Char) → List (List Char) → List (List Char)
  | [], _ => []
  | x :: xs, seen =>
      if x ∈ seen then dedupAux xs seen else x :: dedupAux xs (x :: seen)

/-- Keep the first occurrence of every element, in first-seen order. -/
def dedupFirst (l : List (List Char)) : List (List Char) :=
  dedupAux l []

/-- Uppercase normalisation of a token. -/
def upToken (t : List Char) : List Char :=
  t.map Char.toUpper

/-- Modelled from the spec: IdentifierExtractor (§4.1) — the unique
12-character alphanumeric tokens of the text, uppercased, in
first-appearance order; `EmptyInputError` when none is found. -/
def extractIdentifiers (text : List Char) : Except CoreError (List (List Char)) :=
  let ids := dedupFirst ((tokens12 text).map upToken)
  if ids = [] then .error .emptyInput else .ok ids

/-! ## EligibilityFilter (§4.4)

Modelled from the spec: the fee rule with the per-slot sole-option
exception, then the risk-compatibility rule, in that order.  The risk
compatibility table is left abstract (the spec leaves it an open question),
so the filter is parametrised by a compatibility predicate. -/

/-- The fee-rule threshold: 2.5%. -/
def feeCap : ℚ := 5 / 2

/-- A fund is the sole candidate for its AssetClass-slot combination when it
is the only fund of its asset class among the researched funds. -/
def isSoleForClass (funds : List ClassifiedFund) (f : ClassifiedFund) : Bool :=
  (funds.filter (fun g => g.assetClass = f.assetClass)).length = 1

/-- Modelled from the spec: the provisional eligible set produced by the fee
rule alone — funds whose fee ratio does not exceed 2.5% (§4.4). -/
def feeEligible (funds : List ClassifiedFund) : List ClassifiedFund :=
  funds.filter (fun f => f.fund.feeRatio ≤ feeCap)

/-- Modelled from the spec: the eligible set after the fee rule and the
per-slot sole-option reinstatement — a fund with fee ratio above 2.5% is
kept anyway when it is the sole candidate for its slot (§4.4). -/
def afterFeeStage (funds : List ClassifiedFund) : List ClassifiedFund :=
  funds.filter (fun f => f.fund.feeRatio ≤ feeCap || isSoleForClass funds f)

/-- Modelled from the spec: the EligibilityFilter (§4.4) — fee rule first,
then sole-option reinstatement per slot, then the risk-compatibility rule
applied to the reinstated set.  `compat` is the fixed compatibility table,
abstract here. -/
def eligibilityFilter (compat : ClassifiedFund → RiskProfile → Bool)
    (funds : List ClassifiedFund) (p : RiskProfile) : List ClassifiedFund :=
  (afterFeeStage funds).filter (fun f => compat f p)

/-! ## SlotSelector (§4.5) -/

/-- The epsilon used both in the Sharpe-like denominator guard and in the
score tie-break (spec: "a defined epsilon, e.g. 1e-9"). -/
def eps : ℚ := 1 / 1000000000

/-- Modelled from the spec: the per-slot score — Equity-type slots use the
Sharpe-like ratio `oneYearReturn / max(volatility, eps)`, highest wins;
Defensive-type slots prefer lowest volatility, rendered as the score
`-volatility` so that in both cases the highest score wins (§4.5). -/
def slotScore : SlotKind → FundMetrics → ℚ
  | .equity, f => f.oneYearReturn / max f.volatility eps
  | .defensive, f => -f.volatility

/-- Whether challenger `c` beats incumbent `b` for a slot of kind `k`:
when the scores are equal within `eps` the lower fee ratio wins (a fee tie
keeps the incumbent, i.e. the earlier fund in first-seen order); otherwise
the strictly higher score wins (§4.5). -/
def beats (k : SlotKind) (c b : FundMetrics) : Bool :=
  if |slotScore k c - slotScore k b| ≤ eps then c.feeRatio < b.feeRatio
  else slotScore k b < slotScore k c

/-- One step of the selection scan: the first candidate becomes the
incumbent, and a later candidate replaces the incumbent only when it beats
it. -/
def selectStep (k : SlotKind) (best : Option FundMetrics) (c : FundMetrics) :
    Option FundMetrics :=
  match best with
  | none => some c
  | some b => if beats k c b then some c else some b

/-- Modelled from the spec: SlotSelector (§4.5) — scan the candidates in
first-seen order, keeping the current best and replacing it only when a
later candidate beats it; `none` on an empty candidate set. -/
def selectWinner (k : SlotKind) (cands : List FundMetrics) : Option FundMetrics :=
  cands.foldl (selectStep k) none

/-! ## GapAnalyzer (§4.6) -/

/-- Modelled from the spec: a slot's outcome — its name, the chosen fund (or
none), and the allocated percentage copied from the target mix (§3
SlotWinner). -/
structure SlotWinner where
  slotName : String
  chosen : Option FundMetrics
  allocatedPct : ℚ
deriving DecidableEq, Repr

/-- Modelled from the spec: a warning naming a slot with no eligible
candidate (§3 GapWarning). -/
structure GapWarning where
  slotName : String
deriving DecidableEq, Repr

/-- Modelled from the spec: GapAnalyzer (§4.6) — one warning, carrying the
slot's label, for each slot whose winner is `none`. -/
def findGaps (winners : List SlotWinner) : List GapWarning :=
  (winners.filter (fun w => w.chosen.isNone)).map (fun w => ⟨w.slotName⟩)

/-! ### Concrete instances used to exercise the components -/

/-- Modelled from the spec: the one compatibility rule the spec enumerates —
Specialty funds tagged "Crypto" are incompatible with the Conservative and
Balanced profiles (§4.4). -/
def noCryptoForCautious (f : ClassifiedFund) (p : RiskProfile) : Bool :=
  !(f.assetClass = AssetClass.specialty && f.tag = some "Crypto" &&
    (p = RiskProfile.conservative || p = RiskProfile.balanced))

/-- Scenario D fund A: 8% one-year return, 10% volatility (score 0.8). -/
def fundA : FundMetrics := ⟨"FUNDA0000001", 8, 10, 1, none⟩

/-- Scenario D fund B: 6% one-year return, 5% volatility (score 1.2). -/
def fundB : FundMetrics := ⟨"FUNDB0000002", 6, 5, 1, none⟩

/-- A fund whose score ties `tieX` but with a lower fee ratio. -/
def tieX : FundMetrics := ⟨"TIEX00000001", 8, 10, 2, none⟩

/-- A fund with the same score as `tieX` and a lower fee ratio. -/
def tieY : FundMetrics := ⟨"TIEY00000002", 8, 10, 1, none⟩

/-- A fund with the same score and the same fee ratio as `tieX`. -/
def tieZ : FundMetrics := ⟨"TIEZ00000003", 8, 10, 2, none⟩

/-- Scenario C fund: fee ratio 3.0% (above the cap) and sole candidate for
its slot. -/
def soleFund : ClassifiedFund := ⟨⟨"SOLE00000001", 5, 8, 3, some 4⟩, .equity, none⟩

/-- A Specialty fund tagged "Crypto", sole candidate for its class. -/
def cryptoFund : ClassifiedFund := ⟨⟨"CRYPT0000001", 50, 80, 2, some 7⟩, .specialty, some "Crypto"⟩

/-- A filled slot for exercising the gap analyzer. -/
def slotFilled : SlotWinner := ⟨"Equity Core", some fundB, 60⟩

/-- An unfilled slot for exercising the gap analyzer. -/
def slotGap : SlotWinner := ⟨"Defensive Anchor", none, 40⟩

/-- Scenario A input text. -/
def scenarioAText : List Char :=
  "Fund X IE00B4L5Y983 and Fund Y LU0552385295".toList

/-- Scenario A expected identifiers, in first-appearance order. -/
def scenarioAIds : List (List Char) :=
  ["IE00B4L5Y983".toList, "LU0552385295".toList]

end PolicyPilot

/-! ## `setup_logging` (src/agent.py, lines 35–61)

The filesystem is embedded as the list of files present in the working
directory plus an oracle naming the files whose removal raises `OSError`
(permissions, races).  `os.path.exists` and `os.remove` are embedded over
this state; `setup_logging` threads the state through its cleanup loop,
catching `OSError` into a warning, and ends by calling
`logging.basicConfig`. -/

namespace AgentPy

/-- The working directory: files present, and the files whose removal
raises `OSError`. -/
structure FS where
  files : List String
  failing : List String
deriving DecidableEq, Repr

/-- `os.path.exists` over the embedded state. -/
def osPathExists (fs : FS) (f : String) : Bool :=
  f ∈ fs.files

/-- `os.remove` over the embedded state: raises `OSError` for files in the
`failing` oracle, otherwise deletes exactly the named file. -/
def osRemove (fs : FS) (f : String) : Except String FS :=
  if f ∈ fs.failing then .error "OSError"
  else .ok { fs with files := fs.files.filter (fun g => g ≠ f) }

/-- The cleanup loop of `setup_logging` (agent.py lines 43–49): for each log
file, if it exists try to remove it, and turn an `OSError` into a printed
warning instead of propagating it.  Returns the final state and the
warned-about files in print order. -/
def cleanup : FS → List String → FS × List String
  | fs, [] => (fs, [])
  | fs, f :: rest =>
      if osPathExists fs f then
        match osRemove fs f with
        | .ok fs2 => cleanup fs2 rest
        | .error _ =>
            let r := cleanup fs rest
            (r.1, f :: r.2)
      else cleanup fs rest

/-- The observable outcome of `setup_logging`: the final filesystem state,
the `OSError` warnings printed, whether `logging.basicConfig` was reached,
and the filename it was configured with. -/
structure LogResult where
  fs : FS
  warnings : List String
  basicConfigCalled : Bool
  logFilename : String
deriving DecidableEq, Repr

/-- `setup_logging(log_filename)` (agent.py lines 35–58): clean up
`[log_filename, "web.log", "tunnel.log"]`, then configure the global
logger on `log_filename`. -/
def setup_logging (fs : FS) (log_filename : String) : LogResult :=
  let r := cleanup fs [log_filename, "web.log", "tunnel.log"]
  { fs := r.1, warnings := r.2, basicConfigCalled := true,
    logFilename := log_filename }

/-- The module-level side effect of importing `agent.py` (line 61):
`setup_logging()` with the default argument `"logger.log"`. -/
def importAgentModule (fs : FS) : LogResult :=
  setup_logging fs "logger.log"

/-- A working directory where removing `web.log` raises `OSError`. -/
def sampleFS : FS := ⟨["logger.log", "web.log", "other.txt"], ["web.log"]⟩

/-- A working directory where every removal succeeds. -/
def cleanFS : FS := ⟨["logger.log", "web.log", "portfolio.txt"], []⟩

end AgentPy

/-! ## Theorems -/

namespace PolicyPilot

/-! ### Helper lemmas on deduplication and tokenisation -/

lemma dedupAux_sublist : ∀ (l seen : List (List Char)), List.Sublist (dedupAux l seen) l := by
  intro l
  induction l with
  | nil => intro seen; simp [dedupAux]
  | cons x xs ih =>
      intro seen
      simp only [dedupAux]
      split
      · exact (ih seen).trans (List.sublist_cons_self x xs)
      · exact List.Sublist.cons₂ x (ih (x :: seen))

lemma mem_dedupAux_not_seen :
    ∀ (l seen : List (List Char)) (x : List Char), x ∈ dedupAux l seen → x ∉ seen := by
  intro l
  induction l with
  | nil => intro seen x hx; simp [dedupAux] at hx
  | cons y ys ih =>
      intro seen x hx
      simp only [dedupAux] at hx
      split at hx
      · exact ih seen x hx
      · rename_i hy
        rcases List.mem_cons.mp hx with rfl | hx2
        · exact hy
        · intro hseen
          exact (ih (y :: seen) x hx2) (List.mem_cons_of_mem _ hseen)

lemma dedupAux_nodup : ∀ (l seen : List (List Char)), (dedupAux l seen).Nodup := by
  intro l
  induction l with
  | nil => intro seen; simp [dedupAux]
  | cons y ys ih =>
      intro seen
      simp only [dedupAux]
      split
      · exact ih seen
      · refine List.nodup_cons.mpr ⟨?_, ih (y :: seen)⟩
        intro hy
        exact (mem_dedupAux_not_seen ys (y :: seen) y hy) (List.mem_cons_self _ _)

lemma dedupFirst_eq_nil_iff (l : List (List Char)) : dedupFirst l = [] ↔ l = [] := by
  cases l with
  | nil => simp [dedupFirst, dedupAux]
  | cons x xs => simp [dedupFirst, dedupAux]

lemma runsAux_alnum :
    ∀ (cs acc : List Char), (∀ c ∈ acc, c.isAlphanum = true) →
      ∀ t ∈ runsAux cs acc, ∀ c ∈ t, c.isAlphanum = true := by
  intro cs
  induction cs with
  | nil =>
      intro acc hacc t ht c hc
      simp only [runsAux] at ht
      split at ht
      · simp at ht
      · rcases List.mem_singleton.mp ht with rfl
        exact hacc c (List.mem_reverse.mp hc)
  | cons d ds ih =>
      intro acc hacc t ht c hc
      simp only [runsAux] at ht
      split at ht
      · rename_i hd
        refine ih (d :: acc) ?_ t ht c hc
        intro e he
        rcases List.mem_cons.mp he with rfl | he2
        · exact hd
        · exact hacc e he2
      · split at ht
        · exact ih [] (by simp) t ht c hc
        · rcases List.mem_cons.mp ht with rfl | ht2
          · exact hacc c (List.mem_reverse.mp hc)
          · exact ih [] (by simp) t ht2 c hc

/-! ### Claim theorems: target mix and identifier extraction -/

/-- C7: the four profile-to-mix mappings are fixed constants — Conservative
yields 30% Equity / 70% Defensive, Balanced 60/40, Growth 80/20, and
Aggressive 100/0; `targetMix` is a pure function of the profile alone, so
every run sees the same tables. -/
theorem targetMix_fixed_constants :
    equityPct .conservative = 30 ∧ defensivePct .conservative = 70 ∧
    equityPct .balanced = 60 ∧ defensivePct .balanced = 40 ∧
    equityPct .growth = 80 ∧ defensivePct .growth = 20 ∧
    equityPct .aggressive = 100 ∧ defensivePct .aggressive = 0 := by
  refine ⟨?_, ?_, ?_, ?_, ?_, ?_, ?_, ?_⟩ <;>
    simp [equityPct, defensivePct, targetMix]

/-- C5: the IdentifierExtractor signals `EmptyInputError` exactly on texts
with zero maximal 12-character alphanumeric tokens; on any text with at
least one such token it does not signal `EmptyInputError`. -/
theorem extractIdentifiers_emptyInput (text : List Char) :
    (tokens12 text = [] → extractIdentifiers text = .error .emptyInput) ∧
    (tokens12 text ≠ [] → extractIdentifiers text ≠ .error .emptyInput) := by
  constructor
  · intro h
    simp [extractIdentifiers, h, dedupFirst, dedupAux]
  · intro h hcon
    simp only [extractIdentifiers] at hcon
    split at hcon
    · rename_i hnil
      exact h (List.map_eq_nil_iff.mp ((dedupFirst_eq_nil_iff _).mp hnil))
    · exact Except.noConfusion hcon

/-- Witness for C5: a text with no 12-character token raises
`EmptyInputError`; the scenario-A text does not. -/
theorem extractIdentifiers_emptyInput_witness :
    extractIdentifiers "no identifiers in this text".toList = .error .emptyInput ∧
    extractIdentifiers scenarioAText ≠ .error .emptyInput :=
  ⟨(extractIdentifiers_emptyInput _).1 rfl,
   (extractIdentifiers_emptyInput scenarioAText).2 (by decide)⟩

/-- C6: extraction is deterministic (a second run on the same text returns
the same sequence) and well-formed — the result has no duplicates, keeps the
first-seen order of the uppercased 12-character tokens, and every returned
identifier is the uppercase normalisation of a maximal alphanumeric token of
exactly 12 characters. -/
theorem extractIdentifiers_wellformed (text : List Char) (ids : List (List Char))
    (h : extractIdentifiers text = .ok ids) :
    extractIdentifiers text = .ok ids ∧
    ids.Nodup ∧
    List.Sublist ids ((tokens12 text).map upToken) ∧
    ∀ id ∈ ids, id.length = 12 ∧
      ∃ tok, tok ∈ alnumTokens text ∧ tok.length = 12 ∧
        (∀ c ∈ tok, c.isAlphanum = true) ∧ id = upToken tok := by
  have hids : ids = dedupFirst ((tokens12 text).map upToken) := by
    simp only [extractIdentifiers] at h
    split at h
    · exact Except.noConfusion h
    · exact (Except.ok.inj h).symm
  subst hids
  refine ⟨h, dedupAux_nodup _ _, dedupAux_sublist _ _, ?_⟩
  intro id hid
  have hid2 : id ∈ (tokens12 text).map upToken :=
    (dedupAux_sublist _ _).subset hid
  rcases List.mem_map.mp hid2 with ⟨tok, htok, rfl⟩
  have hlen : tok.length = 12 := by
    have := List.mem_filter.mp htok
    simpa using this.2
  have htok2 : tok ∈ alnumTokens text := (List.mem_filter.mp htok).1
  refine ⟨by simp [upToken, hlen], tok, htok2, hlen, ?_, rfl⟩
  exact runsAux_alnum text [] (by simp) tok htok2

/-- Witness for C6: the scenario-A text extracts exactly its two identifiers,
in order, and the result is duplicate-free. -/
theorem extractIdentifiers_wellformed_witness :
    extractIdentifiers scenarioAText = .ok scenarioAIds ∧ scenarioAIds.Nodup := by
  have h := extractIdentifiers_wellformed scenarioAText scenarioAIds rfl
  exact ⟨h.1, h.2.1⟩

end PolicyPilot

namespace PolicyPilot

/-! ### Claim theorems: eligibility filter -/

/-- C2: a fund is rejected by the fee rule (with its sole-option exception)
iff its fee ratio exceeds 2.5% and it is not the sole candidate for its
AssetClass-slot combination; a fund with fee ratio at most 2.5% is never
rejected by the fee rule, and a sole candidate with a higher fee ratio is
reinstated. -/
theorem feeRule_reject_iff (funds : List ClassifiedFund) (f : ClassifiedFund)
    (hf : f ∈ funds) :
    (f ∉ afterFeeStage funds ↔
      (feeCap < f.fund.feeRatio ∧ isSoleForClass funds f = false)) ∧
    (f.fund.feeRatio ≤ feeCap → f ∈ afterFeeStage funds) ∧
    (isSoleForClass funds f = true → f ∈ afterFeeStage funds) := by
  have hmem : f ∈ afterFeeStage funds ↔
      (f.fund.feeRatio ≤ feeCap ∨ isSoleForClass funds f = true) := by
    simp [afterFeeStage, List.mem_filter, hf]
  refine ⟨?_, fun h => hmem.mpr (Or.inl h), fun h => hmem.mpr (Or.inr h)⟩
  rw [hmem]
  simp only [not_or, not_le, Bool.not_eq_true]

/-- Witness for C2 (scenario C): a fund with fee ratio 3.0% that is the sole
candidate for its slot is not rejected. -/
theorem feeRule_reject_iff_witness : soleFund ∈ afterFeeStage [soleFund] :=
  (feeRule_reject_iff [soleFund] soleFund (by simp)).2.2 (by rfl)

/-- C3: the EligibilityFilter is, by construction, the risk-compatibility
rule applied after the fee rule and the per-slot sole-option reinstatement;
consequently a risk-incompatible fund never appears in the eligible set,
even when it is the sole option for its slot. -/
theorem riskRule_never_waived (compat : ClassifiedFund → RiskProfile → Bool)
    (funds : List ClassifiedFund) (p : RiskProfile) (f : ClassifiedFund)
    (h : compat f p = false) :
    eligibilityFilter compat funds p =
      (afterFeeStage funds).filter (fun g => compat g p) ∧
    f ∉ eligibilityFilter compat funds p := by
  refine ⟨rfl, ?_⟩
  intro hmem
  have := (List.mem_filter.mp hmem).2
  rw [h] at this
  exact Bool.false_ne_true this

/-- Witness for C3: a Specialty fund tagged "Crypto" — the sole candidate
for its class — is still rejected for a Conservative profile. -/
theorem riskRule_never_waived_witness :
    cryptoFund ∉ eligibilityFilter noCryptoForCautious [cryptoFund] .conservative :=
  (riskRule_never_waived noCryptoForCautious [cryptoFund] .conservative cryptoFund rfl).2

end PolicyPilot

namespace PolicyPilot

/-! ### Helper lemmas on the selection scan -/

lemma eps_pos : (0 : ℚ) < eps := by norm_num [eps]

lemma beats_self (k : SlotKind) (w : FundMetrics) : beats k w w = false := by
  unfold beats
  rw [sub_self, abs_zero, if_pos eps_pos.le]
  simp

lemma beats_of_dominated (k : SlotKind) {b w : FundMetrics}
    (h : slotScore k b + eps < slotScore k w) : beats k w b = true := by
  unfold beats
  split
  · rename_i habs
    rw [abs_le] at habs
    exfalso
    linarith [habs.2]
  · simp only [decide_eq_true_eq]
    linarith [eps_pos]

lemma not_beats_of_dominating (k : SlotKind) {c w : FundMetrics}
    (h : slotScore k c + eps < slotScore k w) : beats k c w = false := by
  unfold beats
  split
  · rename_i habs
    rw [abs_le] at habs
    exfalso
    linarith [habs.1]
  · simp only [decide_eq_false_iff_not, not_lt]
    linarith [eps_pos]

lemma foldl_selectStep_dominant (k : SlotKind) (w : FundMetrics) :
    ∀ (l : List FundMetrics) (b : FundMetrics),
      (∀ c ∈ l, c ≠ w → slotScore k c + eps < slotScore k w) →
      (b = w ∨ slotScore k b + eps < slotScore k w) →
      (w ∈ l ∨ b = w) →
      l.foldl (selectStep k) (some b) = some w := by
  intro l
  induction l with
  | nil =>
      intro b _ _ hw
      rcases hw with h | h
      · cases h
      · rw [h, List.foldl_nil]
  | cons c rest ih =>
      intro b hdom hb hw
      rw [List.foldl_cons]
      have hdomrest : ∀ x ∈ rest, x ≠ w → slotScore k x + eps < slotScore k w :=
        fun x hx => hdom x (List.mem_cons_of_mem _ hx)
      by_cases hcw : c = w
      · subst hcw
        rcases hb with hbw | hbdom
        · subst hbw
          rw [show selectStep k (some b) b = some b by
            simp [selectStep, beats_self]]
          exact ih b hdomrest (Or.inl rfl) (Or.inr rfl)
        · rw [show selectStep k (some b) c = some c by
            simp [selectStep, beats_of_dominated k hbdom]]
          exact ih c hdomrest (Or.inl rfl) (Or.inr rfl)
      · have hdomc : slotScore k c + eps < slotScore k w :=
          hdom c (List.mem_cons_self _ _) hcw
        rcases hb with hbw | hbdom
        · subst hbw
          rw [show selectStep k (some b) c = some b by
            simp [selectStep, not_beats_of_dominating k hdomc]]
          exact ih b hdomrest (Or.inl rfl) (Or.inr rfl)
        · have hwrest : w ∈ rest := by
            rcases hw with hmem | hbw
            · rcases List.mem_cons.mp hmem with h | h
              · exact absurd h.symm hcw
              · exact h
            · exfalso
              rw [hbw] at hbdom
              linarith [eps_pos]
          have hstep : selectStep k (some b) c = some c ∨
              selectStep k (some b) c = some b := by
            simp only [selectStep]
            split <;> simp
          rcases hstep with h | h <;> rw [h]
          · exact ih c hdomrest (Or.inr hdomc) (Or.inl hwrest)
          · exact ih b hdomrest (Or.inr hbdom) (Or.inl hwrest)

/-! ### Claim theorems: slot selector -/

/-- C1: on a non-empty candidate set, the SlotSelector picks the winner by
the slot's scoring rule — a candidate whose score strictly dominates every
other candidate's score by more than the tie-break epsilon is selected;
for Equity-type slots the score is `oneYearReturn / max(volatility, eps)`
(highest wins) and for Defensive-type slots it is `-volatility` (so the
lowest volatility wins). -/
theorem selectWinner_scoring (k : SlotKind) (cands : List FundMetrics)
    (w : FundMetrics) (hw : w ∈ cands)
    (hdom : ∀ c ∈ cands, c ≠ w → slotScore k c + eps < slotScore k w) :
    selectWinner k cands = some w := by
  cases cands with
  | nil => cases hw
  | cons c rest =>
      rw [selectWinner, List.foldl_cons,
        show selectStep k none c = some c from rfl]
      refine foldl_selectStep_dominant k w rest c ?_ ?_ ?_
      · exact fun x hx => hdom x (List.mem_cons_of_mem _ hx)
      · by_cases hcw : c = w
        · exact Or.inl hcw
        · exact Or.inr (hdom c (List.mem_cons_self _ _) hcw)
      · rcases List.mem_cons.mp hw with h | h
        · exact Or.inr h.symm
        · exact Or.inl h

/-- Witness for C1 (scenario D): between Equity funds A (8%/10%, score 0.8)
and B (6%/5%, score 1.2), B wins the Equity slot. -/
theorem selectWinner_scoring_witness :
    selectWinner .equity [fundA, fundB] = some fundB := by
  refine selectWinner_scoring .equity [fundA, fundB] fundB (by simp) ?_
  intro c hc hne
  rcases List.mem_cons.mp hc with rfl | hc2
  · simp only [slotScore, fundA, fundB, eps]
    rw [max_eq_left (by norm_num), max_eq_left (by norm_num)]
    norm_num
  · rcases List.mem_singleton.mp hc2 with rfl
    exact absurd rfl hne

/-- C4: the SlotSelector is deterministic — it is a pure function of the
candidate list, and its tie-break is fixed: when two candidates' scores are
equal within epsilon, the lower fee ratio wins, and when the fee ratios are
also equal, the candidate appearing first in the original extraction order
wins. -/
theorem selectWinner_tiebreak (k : SlotKind) (f g : FundMetrics)
    (h : |slotScore k f - slotScore k g| ≤ eps) :
    (g.feeRatio < f.feeRatio → selectWinner k [f, g] = some g) ∧
    (f.feeRatio = g.feeRatio → selectWinner k [f, g] = some f) := by
  have hgf : |slotScore k g - slotScore k f| ≤ eps := by
    rw [abs_sub_comm]
    exact h
  have hsel : selectWinner k [f, g] = if beats k g f then some g else some f := rfl
  have hbeats : beats k g f = decide (g.feeRatio < f.feeRatio) := by
    unfold beats
    rw [if_pos hgf]
  constructor
  · intro hlt
    rw [hsel, hbeats, decide_eq_true hlt, if_pos rfl]
  · intro heq
    rw [hsel, hbeats]
    simp [heq]

/-- Witness for C4: with tied scores, the lower-fee fund wins even from the
second position; with tied scores and tied fees, the first-seen fund wins. -/
theorem selectWinner_tiebreak_witness :
    selectWinner .equity [tieX, tieY] = some tieY ∧
    selectWinner .equity [tieX, tieZ] = some tieX := by
  constructor
  · refine (selectWinner_tiebreak .equity tieX tieY ?_).1 (by norm_num [tieX, tieY])
    simp [slotScore, tieX, tieY, eps]
  · refine (selectWinner_tiebreak .equity tieX tieZ ?_).2 rfl
    simp [slotScore, tieX, tieZ, eps]

end PolicyPilot

namespace PolicyPilot

/-! ### Helper lemma on gap counting -/

lemma countP_gap_nodup :
    ∀ (l : List SlotWinner), (l.map SlotWinner.slotName).Nodup →
      ∀ w ∈ l,
        l.countP (fun v => decide (v.slotName = w.slotName) && v.chosen.isNone) =
          if w.chosen.isNone then 1 else 0 := by
  intro l
  induction l with
  | nil => intro _ w hw; cases hw
  | cons v rest ih =>
      intro hnd w hw
      rw [List.map_cons] at hnd
      have hnd2 := List.nodup_cons.mp hnd
      rw [List.countP_cons]
      rcases List.mem_cons.mp hw with rfl | hwr
      · have hrest :
            rest.countP (fun u => decide (u.slotName = w.slotName) && u.chosen.isNone) = 0 := by
          rw [List.countP_eq_zero]
          intro u hu
          have hne : u.slotName ≠ w.slotName := by
            intro hcon
            exact hnd2.1 (hcon ▸ List.mem_map_of_mem SlotWinner.slotName hu)
          simp [hne]
        rw [hrest]
        simp
      · have hne : v.slotName ≠ w.slotName := by
          intro hcon
          exact hnd2.1 (hcon ▸ List.mem_map_of_mem SlotWinner.slotName hwr)
        rw [ih hnd2.2 w hwr]
        simp [hne]

/-- C8: for every sequence of slot winners with distinct slot names, the
GapAnalyzer produces exactly one GapWarning for each slot whose winner is
`none`, and no GapWarning for a slot whose winner is present. -/
theorem findGaps_exactly_one (winners : List SlotWinner)
    (hnd : (winners.map SlotWinner.slotName).Nodup)
    (w : SlotWinner) (hw : w ∈ winners) :
    (findGaps winners).countP (fun g => g.slotName = w.slotName) =
      if w.chosen.isNone then 1 else 0 := by
  rw [findGaps, List.countP_map, List.countP_filter]
  exact countP_gap_nodup winners hnd w hw

/-- Witness for C8: with an Equity slot filled and a Defensive slot
unfilled, exactly one warning names the Defensive slot and none names the
Equity slot. -/
theorem findGaps_exactly_one_witness :
    (findGaps [slotFilled, slotGap]).countP (fun g => g.slotName = slotGap.slotName) = 1 ∧
    (findGaps [slotFilled, slotGap]).countP (fun g => g.slotName = slotFilled.slotName) = 0 := by
  have h1 := findGaps_exactly_one [slotFilled, slotGap] (by decide) slotGap (by simp)
  have h2 := findGaps_exactly_one [slotFilled, slotGap] (by decide) slotFilled (by simp)
  refine ⟨?_, ?_⟩
  · rw [h1]
    rfl
  · rw [h2]
    rfl

end PolicyPilot

namespace AgentPy

/-! ### Helper lemmas on the cleanup loop -/

lemma cleanup_warnings_sound :
    ∀ (l : List String) (fs : FS), ∀ f ∈ (cleanup fs l).2,
      f ∈ fs.files ∧ f ∈ fs.failing := by
  intro l
  induction l with
  | nil => intro fs f hf; simp [cleanup] at hf
  | cons g rest ih =>
      intro fs f hf
      simp only [cleanup] at hf
      split at hf
      · rename_i hex
        cases hrm : osRemove fs g with
        | ok fs2 =>
            rw [hrm] at hf
            have h2 := ih fs2 f hf
            unfold osRemove at hrm
            split at hrm
            · exact Except.noConfusion hrm
            · cases Except.ok.inj hrm
              exact ⟨List.mem_of_mem_filter h2.1, h2.2⟩
        | error e =>
            rw [hrm] at hf
            simp only [List.mem_cons] at hf
            unfold osRemove at hrm
            split at hrm
            · rename_i hfail
              rcases hf with rfl | hf2
              · refine ⟨?_, hfail⟩
                simpa [osPathExists] using hex
              · exact ih fs f hf2
            · exact Except.noConfusion hrm
      · exact ih fs f hf

lemma cleanup_files_noFail :
    ∀ (l : List String) (fs : FS), fs.failing = [] →
      ∀ f, f ∈ (cleanup fs l).1.files ↔ (f ∈ fs.files ∧ f ∉ l) := by
  intro l
  induction l with
  | nil => intro fs _ f; simp [cleanup]
  | cons g rest ih =>
      intro fs hfail f
      simp only [cleanup]
      split
      · rename_i hex
        rw [show osRemove fs g =
            .ok ⟨fs.files.filter (fun x => x ≠ g), fs.failing⟩ by
          unfold osRemove
          rw [if_neg (by rw [hfail]; exact List.not_mem_nil g)]]
        rw [ih ⟨fs.files.filter (fun x => x ≠ g), fs.failing⟩ hfail f]
        simp only [List.mem_filter, decide_eq_true_eq, List.mem_cons, not_or]
        constructor
        · rintro ⟨⟨hmem, hne⟩, hnr⟩
          exact ⟨hmem, hne, hnr⟩
        · rintro ⟨hmem, hne, hnr⟩
          exact ⟨⟨hmem, hne⟩, hnr⟩
      · rename_i hex
        have hgne : g ∉ fs.files := by
          simpa [osPathExists] using hex
        rw [ih fs hfail f]
        simp only [List.mem_cons, not_or]
        constructor
        · rintro ⟨hmem, hnr⟩
          exact ⟨hmem, fun hcon => hgne (hcon ▸ hmem), hnr⟩
        · rintro ⟨hmem, _, hnr⟩
          exact ⟨hmem, hnr⟩

/-! ### Claim theorems: setup_logging -/

/-- C9: `setup_logging` is total for every filename and every filesystem
state — removal is attempted only behind an existence check, an `OSError`
during removal becomes a printed warning (every warned-about file existed
and was one the removal oracle failed on) instead of propagating, and the
`logging.basicConfig` call is always reached. -/
theorem setup_logging_total (fs : FS) (name : String) :
    (setup_logging fs name).basicConfigCalled = true ∧
    ∀ f ∈ (setup_logging fs name).warnings, f ∈ fs.files ∧ f ∈ fs.failing := by
  refine ⟨rfl, ?_⟩
  intro f hf
  exact cleanup_warnings_sound [name, "web.log", "tunnel.log"] fs f hf

/-- Witness for C9: on a state where removing `web.log` raises `OSError`,
the function still reaches `basicConfig`, and the warned file both existed
and was a failing one. -/
theorem setup_logging_total_witness :
    (setup_logging sampleFS "logger.log").basicConfigCalled = true ∧
    ("web.log" ∈ sampleFS.files ∧ "web.log" ∈ sampleFS.failing) :=
  ⟨(setup_logging_total sampleFS "logger.log").1,
   (setup_logging_total sampleFS "logger.log").2 "web.log" (by decide)⟩

/-- C10: importing the module invokes `setup_logging()` with its default
filename, and — when no removal fails — the import deletes exactly those of
`logger.log`, `web.log`, `tunnel.log` that exist and removes no other file:
afterwards a file is present iff it was present before and is none of the
three, and none of the three survives. -/
theorem importAgentModule_frame (fs : FS) (hok : fs.failing = []) :
    importAgentModule fs = setup_logging fs "logger.log" ∧
    (∀ f, f ∈ (importAgentModule fs).fs.files ↔
        (f ∈ fs.files ∧ f ≠ "logger.log" ∧ f ≠ "web.log" ∧ f ≠ "tunnel.log")) ∧
    "logger.log" ∉ (importAgentModule fs).fs.files ∧
    "web.log" ∉ (importAgentModule fs).fs.files ∧
    "tunnel.log" ∉ (importAgentModule fs).fs.files := by
  have hfiles := cleanup_files_noFail ["logger.log", "web.log", "tunnel.log"] fs hok
  have hmain : ∀ f, f ∈ (importAgentModule fs).fs.files ↔
      (f ∈ fs.files ∧ f ≠ "logger.log" ∧ f ≠ "web.log" ∧ f ≠ "tunnel.log") := by
    intro f
    rw [show (importAgentModule fs).fs =
        (cleanup fs ["logger.log", "web.log", "tunnel.log"]).1 from rfl]
    rw [hfiles f]
    simp [not_or, and_assoc]
  refine ⟨rfl, hmain, ?_, ?_, ?_⟩
  · intro hcon
    exact ((hmain "logger.log").mp hcon).2.1 rfl
  · intro hcon
    exact ((hmain "web.log").mp hcon).2.2.1 rfl
  · intro hcon
    exact ((hmain "tunnel.log").mp hcon).2.2.2 rfl

/-- Witness for C10: on a clean state holding `logger.log`, `web.log` and
`portfolio.txt`, the import removes the two log files and keeps
`portfolio.txt`. -/
theorem importAgentModule_frame_witness :
    "logger.log" ∉ (importAgentModule cleanFS).fs.files ∧
    "web.log" ∉ (importAgentModule cleanFS).fs.files ∧
    "portfolio.txt" ∈ (importAgentModule cleanFS).fs.files :=
  ⟨(importAgentModule_frame cleanFS rfl).2.2.1,
   (importAgentModule_frame cleanFS rfl).2.2.2.1,
   ((importAgentModule_frame cleanFS rfl).2.1 "portfolio.txt").mpr
     (by refine ⟨by simp [cleanFS], ?_, ?_, ?_⟩ <;> decide)⟩

end AgentPy
